import Mathlib

/-!
# Verification of the translate-bot core (langbot.py)

A shallow embedding of the caching / settings / membership layer, the
translation-response sanitization pipeline, and the per-message fan-out
loop of `langbot.py`, together with proofs of the specification claims.

Modelling conventions:
* Python dicts keyed by strings become association lists (`dget` / `dset`).
* Python `set` objects of user-id strings become duplicate-free insertion
  lists (`sinsert`); iteration order is the insertion order.
* Python settings dicts are mutable objects, and the code's `.copy()`
  discipline is part of what the spec claims; settings objects therefore
  live in an explicit heap (`Heap`) of numbered cells, and the caches hold
  cell numbers (references), while the persistent store holds values.
* Redis unavailability is a boolean on the state; an unavailable store makes
  every redis primitive raise.  A raising call is `Except.error`; every
  operation also returns the state reached at the moment of the raise,
  mirroring Python globals surviving an exception.
* `time.time()` is the `now` field of the state; callers advance it between
  operations.
* Two ghost counters instrument the state without affecting behaviour:
  `refreshCount` counts full cache rebuilds and `userWrites` counts redis
  SET operations on user-settings keys.
-/

/-- Lookup in an association list: the Python `d[k]` / `k in d` pair. -/
def dget {κ α : Type} [DecidableEq κ] : List (κ × α) → κ → Option α
  | [], _ => none
  | (k, v) :: t, q => if k = q then some v else dget t q

/-- Update of an association list: the Python `d[k] = v`. -/
def dset {κ α : Type} [DecidableEq κ] (l : List (κ × α)) (k : κ) (v : α) :
    List (κ × α) :=
  (k, v) :: l.filter (fun p => decide (p.1 ≠ k))

/-- Python `set.add`: insert if absent, keeping iteration order stable. -/
def sinsert (s : List String) (x : String) : List String :=
  if x ∈ s then s else s ++ [x]

theorem dget_dset_self {κ α : Type} [DecidableEq κ] (l : List (κ × α)) (k : κ) (v : α) :
    dget (dset l k v) k = some v := by
  simp [dget, dset]

theorem dget_filter_ne {κ α : Type} [DecidableEq κ] (l : List (κ × α)) (k q : κ)
    (h : q ≠ k) : dget (l.filter (fun p => decide (p.1 ≠ k))) q = dget l q := by
  induction l with
  | nil => rfl
  | cons p t ih =>
    cases p with
    | mk pk pv =>
      by_cases hp : pk = k
      · have h1 : List.filter (fun p => decide (p.1 ≠ k)) ((pk, pv) :: t)
            = List.filter (fun p => decide (p.1 ≠ k)) t := by
          simp [List.filter_cons, hp]
        have h2 : ¬ pk = q := fun he => h (he ▸ hp)
        rw [h1, ih]
        simp [dget, h2]
      · have h1 : List.filter (fun p => decide (p.1 ≠ k)) ((pk, pv) :: t)
            = (pk, pv) :: List.filter (fun p => decide (p.1 ≠ k)) t := by
          simp [List.filter_cons, hp]
        rw [h1]
        simp only [dget]
        rw [ih]

theorem dget_dset_ne {κ α : Type} [DecidableEq κ] (l : List (κ × α)) (k q : κ) (v : α)
    (h : q ≠ k) : dget (dset l k v) q = dget l q := by
  have hk : ¬ k = q := fun he => h he.symm
  unfold dset
  simp only [dget, hk, if_false]
  exact dget_filter_ne l k q h

theorem dget_mem {κ α : Type} [DecidableEq κ] {l : List (κ × α)} {k : κ} {v : α}
    (h : dget l k = some v) : (k, v) ∈ l := by
  induction l with
  | nil => simp [dget] at h
  | cons p t ih =>
    cases p with
    | mk pk pv =>
      by_cases hp : pk = k
      · simp [dget, hp] at h
        subst hp h
        exact List.mem_cons_self _ _
      · simp [dget, hp] at h
        exact List.mem_cons_of_mem _ (ih h)

theorem mem_sinsert_self (s : List String) (x : String) : x ∈ sinsert s x := by
  unfold sinsert
  by_cases h : x ∈ s <;> simp [h]

theorem mem_sinsert_of_mem {s : List String} {y : String} (x : String)
    (h : y ∈ s) : y ∈ sinsert s x := by
  unfold sinsert
  by_cases hx : x ∈ s <;> simp [hx, h]

/-- A user's settings record: `language` (may be unset) and `mode`. -/
structure Settings where
  language : Option String
  mode : String
deriving DecidableEq, Repr

/-- The default settings written on first access (langbot.py lines 155-158). -/
def default_settings : Settings := { language := none, mode := "off" }

/-- The fields a setter can change; `update_user_settings` is only ever called
with the keys `language` and `mode`. -/
inductive SKey where
  | language
  | mode
deriving DecidableEq

/-- `settings[key] = value` on a settings dict. -/
def Settings.setKey (s : Settings) : SKey → String → Settings
  | .language, v => { s with language := some v }
  | .mode, v => { s with mode := v }

/-- A value persisted under a `user:<id>` redis key: either a JSON document
that parses to a settings record, or bytes on which `json.loads` raises. -/
inductive StoredVal where
  | ok (s : Settings)
  | bad (raw : String)
deriving DecidableEq

/-- Heap of mutable settings objects; cells are numbered and `next` is the
first unused number. -/
structure Heap where
  objs : List (Nat × Settings)
  next : Nat
deriving DecidableEq

/-- Allocate a fresh settings object (a Python dict literal or `.copy()`). -/
def Heap.alloc (h : Heap) (s : Settings) : Nat × Heap :=
  (h.next, ⟨(h.next, s) :: h.objs, h.next + 1⟩)

/-- Read a settings object. -/
def Heap.read (h : Heap) (r : Nat) : Settings :=
  (dget h.objs r).getD default_settings

/-- Mutate a settings object in place (`settings[key] = value`). -/
def Heap.write (h : Heap) (r : Nat) (s : Settings) : Heap :=
  ⟨dset h.objs r s, h.next⟩

theorem Heap.read_alloc (h : Heap) (s : Settings) :
    (h.alloc s).2.read (h.alloc s).1 = s := by
  simp [Heap.alloc, Heap.read, dget]

theorem Heap.read_write_self (h : Heap) (r : Nat) (s : Settings) :
    (h.write r s).read r = s := by
  simp [Heap.write, Heap.read, dget_dset_self]

theorem Heap.read_write_ne (h : Heap) (r q : Nat) (s : Settings) (hne : q ≠ r) :
    (h.write r s).read q = h.read q := by
  simp [Heap.write, Heap.read, dget_dset_ne _ _ _ _ hne]

/-- The whole in-process state of the bot: the two caches with their shared
staleness timestamp, the heap of settings objects, the redis contents, a
redis-availability flag, the clock, and two ghost counters. -/
structure BotState where
  userSettingsCache : List (String × Nat)
  chatMembersCache : List (String × List String)
  cacheLastUpdated : Nat
  heap : Heap
  redisUsers : List (String × StoredVal)
  redisChatMembers : List (String × List String)
  redisAvailable : Bool
  now : Nat
  refreshCount : Nat
  userWrites : Nat
deriving DecidableEq

/-- `CACHE_TTL = 3600` (langbot.py line 46). -/
def CACHE_TTL : Nat := 3600

/-- `is_cache_stale` (lines 130-132): the whole cache is stale when more than
`CACHE_TTL` has elapsed since `cache_last_updated`. -/
def is_cache_stale (st : BotState) : Bool :=
  decide (CACHE_TTL < st.now - st.cacheLastUpdated)

/-- `add_user_to_chat` (lines 84-100): insert into the cached member set
(initialising it if absent), then `sadd` to redis inside a try/except that
swallows store errors. -/
def add_user_to_chat (st : BotState) (user_id chat_id : Nat) : BotState :=
  let uid := toString user_id
  let cid := toString chat_id
  let cur := (dget st.chatMembersCache cid).getD []
  let st1 := { st with chatMembersCache := dset st.chatMembersCache cid (sinsert cur uid) }
  if st1.redisAvailable then
    let newMembers := sinsert ((dget st1.redisChatMembers cid).getD []) uid
    { st1 with redisChatMembers := dset st1.redisChatMembers cid newMembers }
  else
    st1

/-- `get_chat_members` (lines 103-119): cached set if present (no staleness
check), else load from redis and cache it; a store error degrades to the
empty set without caching. -/
def get_chat_members (st : BotState) (chat_id : Nat) : List String × BotState :=
  let cid := toString chat_id
  match dget st.chatMembersCache cid with
  | some ms => (ms, st)
  | none =>
    if st.redisAvailable then
      let ms := (dget st.redisChatMembers cid).getD []
      (ms, { st with chatMembersCache := dset st.chatMembersCache cid ms })
    else
      ([], st)

/-- The default-settings tail of `get_user_settings` (lines 154-163): build a
fresh default dict, persist it (the redis SET is outside any try/except, but
this path is only reached after a successful redis GET), cache a copy, and
return the original dict. -/
def writeDefault (st : BotState) (uid : String) : (Except Unit Nat) × BotState :=
  let a1 := st.heap.alloc default_settings
  let a2 := a1.2.alloc default_settings
  (.ok a1.1,
    { st with
      heap := a2.2,
      redisUsers := dset st.redisUsers uid (.ok default_settings),
      userWrites := st.userWrites + 1,
      userSettingsCache := dset st.userSettingsCache uid a2.1 })

/-- `get_user_settings` (lines 135-163).  Cache hit with a fresh cache returns
a copy of the cached dict.  Otherwise `redis_client.get` runs outside any
try/except, so an unavailable store raises to the caller.  A parseable stored
record is cached (as a copy) and returned; an unparseable one logs the
`json.loads` error and falls through, with the missing-record case, to the
default-writing tail. -/
def get_user_settings (st : BotState) (user_id : Nat) : (Except Unit Nat) × BotState :=
  let uid := toString user_id
  match dget st.userSettingsCache uid, is_cache_stale st with
  | some rc, false =>
    let a := st.heap.alloc (st.heap.read rc)
    (.ok a.1, { st with heap := a.2 })
  | _, _ =>
    if st.redisAvailable then
      match dget st.redisUsers uid with
      | some (.ok s) =>
        let a1 := st.heap.alloc s
        let a2 := a1.2.alloc s
        (.ok a1.1,
          { st with
            heap := a2.2,
            userSettingsCache := dset st.userSettingsCache uid a2.1 })
      | some (.bad _) => writeDefault st uid
      | none => writeDefault st uid
    else
      (.error (), st)

/-- `update_user_settings` (lines 166-185): read current settings through
`get_user_settings` (a raise there propagates), mutate the returned dict in
place, then inside a try/except persist it, cache a copy and advance the
staleness clock; a store error on the write is swallowed, leaving cache and
clock untouched. -/
def update_user_settings (st : BotState) (user_id : Nat) (key : SKey) (value : String) :
    (Except Unit Unit) × BotState :=
  let uid := toString user_id
  match get_user_settings st user_id with
  | (.error e, st1) => (.error e, st1)
  | (.ok r, st1) =>
    let st2 := { st1 with heap := st1.heap.write r ((st1.heap.read r).setKey key value) }
    let s := st2.heap.read r
    if st2.redisAvailable then
      let a := st2.heap.alloc s
      (.ok (),
        { st2 with
          heap := a.2,
          redisUsers := dset st2.redisUsers uid (.ok s),
          userWrites := st2.userWrites + 1,
          userSettingsCache := dset st2.userSettingsCache uid a.1,
          cacheLastUpdated := st2.now })
    else
      (.ok (), st2)

/-- The inner member-settings loop of `refresh_cache_if_needed` (lines
452-456): load and cache each member's settings; an unparseable record makes
`json.loads` raise, which the per-chat try/except catches, abandoning the
rest of that chat's members. -/
def load_members (st : BotState) : List String → BotState
  | [] => st
  | uid :: rest =>
    match dget st.redisUsers uid with
    | some (.ok s) =>
      let a := st.heap.alloc s
      load_members
        { st with heap := a.2, userSettingsCache := dset st.userSettingsCache uid a.1 }
        rest
    | some (.bad _) => st
    | none => load_members st rest

/-- The per-chat loop of `refresh_cache_if_needed` (lines 439-458): for each
scanned chat key, reload the member set into the cache, then warm each
member's settings. -/
def load_chats (st : BotState) : List String → BotState
  | [] => st
  | cid :: rest =>
    let ms := (dget st.redisChatMembers cid).getD []
    let st1 := { st with chatMembersCache := dset st.chatMembersCache cid ms }
    load_chats (load_members st1 ms) rest

/-- `refresh_cache_if_needed` (lines 419-462): when stale, reset both caches,
scan every `chat:*:members` key, rebuild the membership cache and warm the
settings cache, then stamp the clock.  The scan itself is outside any
try/except, so an unavailable store raises after the reset has already
emptied the caches.  The ghost `refreshCount` counts completed rebuilds. -/
def refresh_cache_if_needed (st : BotState) : (Except Unit Unit) × BotState :=
  if is_cache_stale st then
    let st0 := { st with userSettingsCache := [], chatMembersCache := [], cacheLastUpdated := 0 }
    if st0.redisAvailable then
      let st1 := load_chats st0 (st0.redisChatMembers.map (fun p => p.1))
      (.ok (), { st1 with cacheLastUpdated := st1.now, refreshCount := st1.refreshCount + 1 })
    else
      (.error (), st0)
  else
    (.ok (), st)

/-- Python `str.strip()` on the ASCII whitespace this program encounters:
drop the whitespace run at each end. -/
def trimChars (cs : List Char) : List Char :=
  ((cs.dropWhile Char.isWhitespace).reverse.dropWhile Char.isWhitespace).reverse

/-- A quote character, for the boundary-stripping regex on line 320. -/
def isQuoteChar (c : Char) : Bool := c == '"' || c == '\''

/-- Line 320: strip the run of quote characters at the beginning of the string
and the run at the end (the two anchored alternatives of the substitution can
only match there). -/
def stripQuotes (cs : List Char) : List Char :=
  ((cs.dropWhile isQuoteChar).reverse.dropWhile isQuoteChar).reverse

/-- Does the second list start with the first? -/
def startsList : List Char → List Char → Bool
  | [], _ => true
  | _ :: _, [] => false
  | p :: ps, c :: cs => p == c && startsList ps cs

/-- The label alternatives of the prefix-stripping substitution on line 321,
already lower-cased (the substitution is case-insensitive). -/
def labelList : List (List Char) :=
  ["translation:".toList, "pronunciation:".toList, "transliteration:".toList,
   "in english:".toList, "phonetic:".toList, "romanized:".toList]

/-- Line 321 before the final strip: every alternative is anchored at the
start of the string, so at most one label is removed, at position zero. -/
def stripLabel (cs : List Char) : List Char :=
  match labelList.find? (fun p => startsList p (cs.map Char.toLower)) with
  | some p => cs.drop p.length
  | none => cs

/-- Membership in one of the nine native-script character ranges removed on
line 322 (Devanagari through Malayalam blocks). -/
def isNativeScriptChar (c : Char) : Bool :=
  decide (0x900 ≤ c.toNat ∧ c.toNat ≤ 0x97F) ||
  decide (0x980 ≤ c.toNat ∧ c.toNat ≤ 0x9FF) ||
  decide (0xA00 ≤ c.toNat ∧ c.toNat ≤ 0xA7F) ||
  decide (0xA80 ≤ c.toNat ∧ c.toNat ≤ 0xAFF) ||
  decide (0xB00 ≤ c.toNat ∧ c.toNat ≤ 0xB7F) ||
  decide (0xB80 ≤ c.toNat ∧ c.toNat ≤ 0xBFF) ||
  decide (0xC00 ≤ c.toNat ∧ c.toNat ≤ 0xC7F) ||
  decide (0xC80 ≤ c.toNat ∧ c.toNat ≤ 0xCFF) ||
  decide (0xD00 ≤ c.toNat ∧ c.toNat ≤ 0xD7F)

/-- One attempted match of the line-330 pattern at the head of the character
list: optional whitespace, an opening parenthesis, a parenthesis-free body
containing a hyphen, and the closing parenthesis.  Returns the remainder
after the match.  (With a greedy whitespace star followed by a mandatory
opening parenthesis, a match exists exactly in this maximal-run form.) -/
def tryMatchParen (cs : List Char) : Option (List Char) :=
  let ws := cs.takeWhile Char.isWhitespace
  match cs.drop ws.length with
  | '(' :: body0 =>
    let body := body0.takeWhile (fun c => decide (c ≠ ')'))
    match body0.drop body.length with
    | ')' :: tail => if body.contains '-' then some tail else none
    | _ => none
  | _ => none

theorem takeWhile_len_le (p : Char → Bool) (l : List Char) :
    (l.takeWhile p).length ≤ l.length := by
  induction l with
  | nil => simp
  | cons c t ih =>
    cases hp : p c
    · simp [List.takeWhile_cons, hp]
    · simp [List.takeWhile_cons, hp]
      omega

/-- A successful match always consumes at least the two parentheses, so the
list length strictly shrinks; a fuel budget of one unit per character is
enough for the scan below. -/
theorem tryMatchParen_shrink {cs tail : List Char} (h : tryMatchParen cs = some tail) :
    tail.length < cs.length := by
  simp only [tryMatchParen] at h
  split at h
  · next body0 heq =>
    split at h
    · next tail2 heq2 =>
      split at h
      · cases h
        have e1 := congrArg List.length heq
        have e2 := congrArg List.length heq2
        have e3 := takeWhile_len_le Char.isWhitespace cs
        have e4 := takeWhile_len_le (fun c => decide (c ≠ ')')) body0
        simp only [List.length_drop, List.length_cons] at e1 e2
        omega
      · cases h
    · cases h
  · cases h

/-- The left-to-right scan of the line-330 substitution, with structural fuel
(one unit per character suffices, by `tryMatchParen_shrink`). -/
def removeHyphenParensAux : Nat → List Char → List Char
  | 0, cs => cs
  | _ + 1, [] => []
  | fuel + 1, c :: rest =>
    match tryMatchParen (c :: rest) with
    | some tail => removeHyphenParensAux fuel tail
    | none => c :: removeHyphenParensAux fuel rest

/-- Line 330: replace every occurrence of optional whitespace followed by a
hyphen-containing parenthesized segment with nothing, scanning left to
right as `re.sub` does. -/
def removeHyphenParens (cs : List Char) : List Char :=
  removeHyphenParensAux cs.length cs

/-- A character of the class `[A-Za-z-]` used by the line-331 pattern. -/
def isWordHyphenChar (c : Char) : Bool := c.isAlpha || c == '-'

/-- The line-331 word pattern `[A-Za-z-]+` followed by at least one
`-[A-Za-z-]+` group matches (some prefix of) a maximal `[A-Za-z-]` run
exactly when the run has a hyphen at an interior position, and then it
consumes the whole run. -/
def hasInteriorHyphen (w : List Char) : Bool := ((w.drop 1).dropLast).contains '-'

/-- One attempted match of the line-331 pattern at the head of the list: a
period, mandatory whitespace, then a hyphen-joined word run.  Returns the
remainder after the match. -/
def tryMatchBreakdown (cs : List Char) : Option (List Char) :=
  match cs with
  | '.' :: rest =>
    let ws := rest.takeWhile Char.isWhitespace
    if ws.isEmpty then none
    else
      let rest2 := rest.drop ws.length
      let word := rest2.takeWhile isWordHyphenChar
      if hasInteriorHyphen word then some (rest2.drop word.length) else none
  | _ => none

/-- A successful match consumes the period and at least one whitespace
character, so the length strictly shrinks. -/
theorem tryMatchBreakdown_shrink {cs tail : List Char}
    (h : tryMatchBreakdown cs = some tail) : tail.length < cs.length := by
  simp only [tryMatchBreakdown] at h
  split at h
  · next rest =>
    split at h
    · cases h
    · next hw =>
      split at h
      · cases h
        have h3 : 0 < (rest.takeWhile Char.isWhitespace).length := by
          cases hcase : rest.takeWhile Char.isWhitespace with
          | nil => rw [hcase] at hw; simp at hw
          | cons a t => simp [hcase]
        have h4 : (rest.takeWhile Char.isWhitespace).length ≤ rest.length :=
          takeWhile_len_le _ _
        simp only [List.length_drop, List.length_cons]
        omega
      · cases h
  · cases h

/-- The left-to-right scan of the line-331 substitution, with structural
fuel (one unit per character suffices, by `tryMatchBreakdown_shrink`). -/
def collapseBreakdownAux : Nat → List Char → List Char
  | 0, cs => cs
  | _ + 1, [] => []
  | fuel + 1, c :: rest =>
    match tryMatchBreakdown (c :: rest) with
    | some tail => '.' :: collapseBreakdownAux fuel tail
    | none => c :: collapseBreakdownAux fuel rest

/-- Line 331: replace every occurrence of a period followed by whitespace and
a hyphen-joined word run with a bare period, scanning left to right. -/
def collapseBreakdown (cs : List Char) : List Char :=
  collapseBreakdownAux cs.length cs

/-- Python `str.split(sep)` for a one-character separator. -/
def splitOnChar (sep : Char) : List Char → List (List Char)
  | [] => [[]]
  | c :: rest =>
    let r := splitOnChar sep rest
    if c == sep then [] :: r
    else
      match r with
      | [] => [[c]]
      | h :: t => (c :: h) :: t

/-- Lines 334-337: split on periods; when there is more than one sentence and
any later sentence contains a hyphen, keep only the first sentence, stripped,
with a period re-appended. -/
def pruneSentences (cs : List Char) : List Char :=
  match splitOnChar '.' cs with
  | [] => cs
  | first :: rest =>
    if rest.length > 0 ∧ (List.intercalate ['.'] rest).contains '-' then
      trimChars first ++ ['.']
    else cs

/-- The ordered sanitization pipeline applied to the stripped raw model
response (lines 318-337), over character lists. -/
def sanitizeChars (result : List Char) : List Char :=
  let r1 := stripQuotes result
  let r2 := trimChars (stripLabel r1)
  let r3 := r2.filter (fun c => ! isNativeScriptChar c)
  let r4 :=
    if r3.contains '\n' then trimChars (r3.takeWhile (fun c => decide (c ≠ '\n')))
    else r3
  let r5 := removeHyphenParens r4
  let r6 := collapseBreakdown r5
  pruneSentences r6

/-- The sanitization pipeline on strings. -/
def sanitize (s : String) : String := String.mk (sanitizeChars s.toList)

/-- `translate_text` (lines 188-348), with the remote completion call
abstracted as an oracle from the input text and target language to either a
raised error or the raw response content.  The whole body runs inside one
try/except, so any raise - in practice the remote call - makes the function
return the input text unchanged; a successful response is stripped (line 308)
and sanitized. -/
def translate_text (remote : String → String → Except Unit String)
    (text target_language : String) : String :=
  match remote text target_language with
  | .error _ => text
  | .ok content => sanitize (String.mk (trimChars content.toList))

/-- Python `int()` on the decimal digit strings this program stores as user
ids (signs and surrounding whitespace never occur in `str(int)` output):
accumulate digits, raising on anything else. -/
def parseNatGo (acc : Nat) : List Char → Option Nat
  | [] => some acc
  | c :: rest =>
    if c.isDigit then parseNatGo (acc * 10 + (c.toNat - 48)) rest else none

/-- `int(user_id_str)` (line 507); raises - returns `none` - on an empty or
non-digit string. -/
def parseNat (cs : List Char) : Option Nat :=
  match cs with
  | [] => none
  | _ :: _ => parseNatGo 0 cs

deriving instance DecidableEq for Except

/-- The parts of an inbound update that `process_message` reads: the chat
type, whether the update carries a message object at all, the message text
(`message.text` may be absent), and the sender / chat / message ids. -/
structure Msg where
  chatType : String
  hasMessage : Bool
  text : Option String
  senderId : Nat
  chatId : Nat
  messageId : Nat

/-- The observable outcome of one `process_message` run: the dispatched
replies tagged (as ghost data) with the member they were produced for, and
the two summary counters logged on line 548. -/
structure PMResult where
  sent : List (Nat × String)
  usersCount : Nat
  translationCount : Nat
deriving DecidableEq

/-- `users_count += 1` applied to the outcome of the rest of the loop. -/
def bumpUsers : (Except Unit PMResult) × BotState → (Except Unit PMResult) × BotState
  | (.ok r, st) => (.ok { r with usersCount := r.usersCount + 1 }, st)
  | e => e

/-- Record a dispatched translation for this member on top of the outcome of
the rest of the loop. -/
def addSend (uid : Nat) (t : String) :
    (Except Unit PMResult) × BotState → (Except Unit PMResult) × BotState
  | (.ok r, st) =>
    (.ok { r with
        sent := (uid, t) :: r.sent,
        usersCount := r.usersCount + 1,
        translationCount := r.translationCount + 1 }, st)
  | e => e

/-- The per-member loop of `process_message` (lines 506-546).  For each member
id string: `int()` it (a failure there is outside any try and aborts the
handler); count it; skip the sender; fetch settings (a raise there also
aborts); skip members with a falsy language or mode `off`; otherwise
translate and, when the result differs from the source and is non-blank,
dispatch it.  The translate-and-send block sits in a per-member try/except,
and dispatch success is an oracle `sendOk`; a failed dispatch is logged and
the loop continues.  On an uncaught raise the loop's local counters and send
log are abandoned, mirroring Python locals lost to the exception. -/
def member_loop (remote : String → String → Except Unit String) (sendOk : Nat → Bool)
    (text : String) (senderId : Nat) :
    BotState → List String → (Except Unit PMResult) × BotState
  | st, [] => (.ok ⟨[], 0, 0⟩, st)
  | st, uidStr :: rest =>
    match parseNat uidStr.toList with
    | none => (.error (), st)
    | some uid =>
      if uid = senderId then
        bumpUsers (member_loop remote sendOk text senderId st rest)
      else
        match get_user_settings st uid with
        | (.error e, st1) => (.error e, st1)
        | (.ok r, st1) =>
          let s := st1.heap.read r
          match s.language with
          | none => bumpUsers (member_loop remote sendOk text senderId st1 rest)
          | some lang =>
            if lang = "" then
              bumpUsers (member_loop remote sendOk text senderId st1 rest)
            else if s.mode = "off" then
              bumpUsers (member_loop remote sendOk text senderId st1 rest)
            else
              let translated := translate_text remote text lang
              if translated ≠ text ∧ trimChars translated.toList ≠ [] then
                if sendOk uid then
                  addSend uid translated (member_loop remote sendOk text senderId st1 rest)
                else
                  bumpUsers (member_loop remote sendOk text senderId st1 rest)
              else
                bumpUsers (member_loop remote sendOk text senderId st1 rest)

/-- `process_message` (lines 465-548): refresh the cache if stale, reject
non-group chats, absent messages and empty text, register the sender, fetch
the chat's member set, and run the per-member loop.  `none` is an early
return before the loop; `some r` carries the loop's summary. -/
def process_message (remote : String → String → Except Unit String) (sendOk : Nat → Bool)
    (st : BotState) (m : Msg) : (Except Unit (Option PMResult)) × BotState :=
  match refresh_cache_if_needed st with
  | (.error e, st0) => (.error e, st0)
  | (.ok _, st0) =>
    if ¬ (m.chatType = "group" ∨ m.chatType = "supergroup") then (.ok none, st0)
    else if ¬ m.hasMessage then (.ok none, st0)
    else
      let messageText := (m.text.getD "")
      let st1 := add_user_to_chat st0 m.senderId m.chatId
      if messageText = "" then (.ok none, st1)
      else
        let pair := get_chat_members st1 m.chatId
        match member_loop remote sendOk messageText m.senderId pair.2 pair.1 with
        | (.error e, st3) => (.error e, st3)
        | (.ok r, st3) => (.ok (some r), st3)

/-- One externally triggered operation on the bot, for reasoning about whole
traces: the membership/settings entry points, an inbound group message, and a
clock advance between events. -/
inductive Op where
  | add (u c : Nat)
  | members (c : Nat)
  | settings (u : Nat)
  | update (u : Nat) (k : SKey) (v : String)
  | message (remote : String → String → Except Unit String) (sendOk : Nat → Bool) (m : Msg)
  | tick (t : Nat)

/-- The state reached after one operation (results discarded; the state is
the one left behind even when the operation raised). -/
def runOp (st : BotState) : Op → BotState
  | .add u c => add_user_to_chat st u c
  | .members c => (get_chat_members st c).2
  | .settings u => (get_user_settings st u).2
  | .update u k v => (update_user_settings st u k v).2
  | .message remote sendOk m => (process_message remote sendOk st m).2
  | .tick t => { st with now := t }

/-- Run a trace of operations. -/
def run (st : BotState) : List Op → BotState
  | [] => st
  | op :: ops => run (runOp st op) ops

/-- The user-id strings ever passed to `add_user_to_chat` for chat `c` in a
trace. -/
def addsOf (c : Nat) : List Op → List String
  | [] => []
  | .add u c2 :: ops => if c2 = c then toString u :: addsOf c ops else addsOf c ops
  | _ :: ops => addsOf c ops

/-- An apostrophe, kept out of string literals for clarity. -/
def apos : Char := '\''

/-- The raw remote-model response of the C1 test vector. -/
def c1raw : String :=
  String.mk [apos] ++ "Bonjour" ++ String.mk [apos] ++ " (Bon-zhoor)\nBon-zhoor-extra-line"

/-- C1, counterexample: on the raw response of the claim, the sanitization
pipeline of translate does NOT yield the string Bonjour - the quote after
Bonjour is interior at quote-stripping time and survives all later stages. -/
theorem c1_counterexample :
    translate_text (fun _ _ => .ok c1raw) "Hello" "French" ≠ "Bonjour" := by
  decide

/-- C1, amended: on that raw response the pipeline yields Bonjour followed by
an apostrophe.  Quote stripping (stage 1) only fires at the string
boundaries, before line truncation and parenthetical removal expose the
second apostrophe, which therefore stays. -/
theorem c1_pipeline :
    translate_text (fun _ _ => .ok c1raw) "Hello" "French"
      = "Bonjour" ++ String.mk [apos] := by
  decide

/-- C4: whenever the remote completion call raises, `translate_text` returns
exactly the original input text; no error propagates to the caller. -/
theorem c4_translate_error_identity (remote : String → String → Except Unit String)
    (text lang : String) (e : Unit) (h : remote text lang = .error e) :
    translate_text remote text lang = text := by
  unfold translate_text
  rw [h]

/-- C4, witness: a concrete always-raising remote oracle. -/
theorem c4_translate_error_identity_witness :
    ((fun _ _ => Except.error ()) : String → String → Except Unit String) "Hi" "French"
        = .error () ∧
      translate_text (fun _ _ => .error ()) "Hi" "French" = "Hi" :=
  ⟨rfl, c4_translate_error_identity (fun _ _ => .error ()) "Hi" "French" () rfl⟩

theorem writeDefault_spec (st : BotState) (uid : String) :
    ∃ r st2, writeDefault st uid = (.ok r, st2) ∧
      st2.heap.read r = default_settings ∧
      dget st2.redisUsers uid = some (.ok default_settings) ∧
      st2.userWrites = st.userWrites + 1 := by
  refine ⟨st.heap.next, _, rfl, ?_, ?_, rfl⟩
  · have hne : st.heap.next + 1 ≠ st.heap.next := by omega
    simp [writeDefault, Heap.alloc, Heap.read, dget, hne]
  · simp [writeDefault, dget_dset_self]

/-- Fields of the state `get_user_settings` never touches, on every path. -/
theorem gus_frame (st : BotState) (u : Nat) :
    ((get_user_settings st u).2.chatMembersCache = st.chatMembersCache) ∧
    ((get_user_settings st u).2.redisChatMembers = st.redisChatMembers) ∧
    ((get_user_settings st u).2.redisAvailable = st.redisAvailable) ∧
    ((get_user_settings st u).2.now = st.now) ∧
    ((get_user_settings st u).2.cacheLastUpdated = st.cacheLastUpdated) ∧
    ((get_user_settings st u).2.refreshCount = st.refreshCount) := by
  unfold get_user_settings writeDefault
  cases hdg : dget st.userSettingsCache (toString u) <;>
  cases hstale : is_cache_stale st <;>
  cases hav : st.redisAvailable <;>
  rcases hru : dget st.redisUsers (toString u) with _ | (s | raw) <;>
  simp [hdg, hstale, hav, hru]

/-- With the store available, `get_user_settings` never raises. -/
theorem gus_ok (st : BotState) (u : Nat) (h : st.redisAvailable = true) :
    ∃ r st2, get_user_settings st u = (.ok r, st2) := by
  unfold get_user_settings writeDefault
  cases hdg : dget st.userSettingsCache (toString u) <;>
  cases hstale : is_cache_stale st <;>
  rcases hru : dget st.redisUsers (toString u) with _ | (s | raw) <;>
  simp [hdg, hstale, hru, h]

/-- C3, amended: when the persistent store is unavailable during a settings
read, `get_user_settings` returns a copy of the cached record only when the
user is cached AND the whole cache is fresh; in every other case the store
error propagates to the caller (the redis GET of the read path runs outside
any try/except), instead of degrading to cached or default data. -/
theorem c3_unavailable_read (st : BotState) (u : Nat) (h : st.redisAvailable = false) :
    (∀ rc, dget st.userSettingsCache (toString u) = some rc → is_cache_stale st = false →
      ∃ hp, get_user_settings st u = (.ok st.heap.next, { st with heap := hp }) ∧
        hp.read st.heap.next = st.heap.read rc) ∧
    ((dget st.userSettingsCache (toString u) = none ∨ is_cache_stale st = true) →
      get_user_settings st u = (.error (), st)) := by
  constructor
  · intro rc hrc hst
    refine ⟨(st.heap.alloc (st.heap.read rc)).2, ?_, Heap.read_alloc _ _⟩
    unfold get_user_settings
    simp [hrc, hst, Heap.alloc]
  · intro hca
    rcases hca with hnone | hstale
    · cases hst2 : is_cache_stale st <;> unfold get_user_settings <;> simp [hnone, hst2, h]
    · rcases hdg : dget st.userSettingsCache (toString u) with _ | rc <;>
        unfold get_user_settings <;> simp [hdg, hstale, h]

/-- A state with the store down and user 7 cached under a fresh cache. -/
def stC3w : BotState :=
  { userSettingsCache := [("7", 0)], chatMembersCache := [],
    cacheLastUpdated := 50,
    heap := ⟨[(0, ⟨some "French", "overlay"⟩)], 1⟩,
    redisUsers := [], redisChatMembers := [],
    redisAvailable := false, now := 50, refreshCount := 0, userWrites := 0 }

/-- C3, witness: the amended theorem applied at `stC3w`. -/
theorem c3_unavailable_read_witness :
    stC3w.redisAvailable = false ∧
    (∃ hp, get_user_settings stC3w 7 = (.ok stC3w.heap.next, { stC3w with heap := hp }) ∧
      hp.read stC3w.heap.next = stC3w.heap.read 0) :=
  ⟨rfl, (c3_unavailable_read stC3w 7 rfl).1 0 rfl rfl⟩

/-- A state with the store down and nothing cached. -/
def stC3c : BotState :=
  { userSettingsCache := [], chatMembersCache := [],
    cacheLastUpdated := 50, heap := ⟨[], 0⟩,
    redisUsers := [], redisChatMembers := [],
    redisAvailable := false, now := 50, refreshCount := 0, userWrites := 0 }

/-- C3, counterexample: with the store unavailable and the user not cached,
`get_user_settings` raises to its caller instead of returning the defaults
the claim promises. -/
theorem c3_counterexample :
    stC3c.redisAvailable = false ∧ (get_user_settings stC3c 7).1 = .error () := by
  decide

/-- C5: with the store available and no prior record, the first settings get
returns the default record (language unset, mode off), persists it, and
counts exactly one store write; any later get that finds a persisted record
performs no further store write and leaves the record in place. -/
theorem c5_default_persisted_once (st : BotState) (u : Nat) (h : st.redisAvailable = true) :
    (dget st.redisUsers (toString u) = none →
      dget st.userSettingsCache (toString u) = none →
      ∃ r st2, get_user_settings st u = (.ok r, st2) ∧
        st2.heap.read r = default_settings ∧
        dget st2.redisUsers (toString u) = some (.ok default_settings) ∧
        st2.userWrites = st.userWrites + 1) ∧
    (∀ s, dget st.redisUsers (toString u) = some (.ok s) →
      (get_user_settings st u).2.userWrites = st.userWrites ∧
      dget (get_user_settings st u).2.redisUsers (toString u) = some (.ok s)) := by
  constructor
  · intro hru hdg
    rcases writeDefault_spec st (toString u) with ⟨r, st2, he, h1, h2, h3⟩
    refine ⟨r, st2, ?_, h1, h2, h3⟩
    unfold get_user_settings
    cases hst : is_cache_stale st <;> simp [hdg, hst, hru, h, he]
  · intro s hru
    unfold get_user_settings
    cases hdg : dget st.userSettingsCache (toString u) <;>
      cases hst : is_cache_stale st <;>
        simp [hdg, hst, hru, h]

/-- A state with the store available and user 7 completely unknown. -/
def stC5 : BotState :=
  { userSettingsCache := [], chatMembersCache := [],
    cacheLastUpdated := 50, heap := ⟨[], 0⟩,
    redisUsers := [], redisChatMembers := [],
    redisAvailable := true, now := 50, refreshCount := 0, userWrites := 0 }

/-- C5, witness: the theorem applied at `stC5`, first call. -/
theorem c5_default_persisted_once_witness :
    stC5.redisAvailable = true ∧
    (∃ r st2, get_user_settings stC5 7 = (.ok r, st2) ∧
      st2.heap.read r = default_settings ∧
      dget st2.redisUsers "7" = some (.ok default_settings) ∧
      st2.userWrites = stC5.userWrites + 1) :=
  ⟨rfl, (c5_default_persisted_once stC5 7 rfl).1 rfl rfl⟩

/-- C10: a persisted but unparseable settings record is not preserved - a
settings get that reaches the store (nothing cached, or a stale cache)
returns the defaults and overwrites the stored record with them, losing the
original bytes, and counts one store write. -/
theorem c10_bad_record_overwritten (st : BotState) (u : Nat) (raw : String)
    (h : st.redisAvailable = true)
    (hb : dget st.redisUsers (toString u) = some (.bad raw))
    (hm : dget st.userSettingsCache (toString u) = none ∨ is_cache_stale st = true) :
    ∃ r st2, get_user_settings st u = (.ok r, st2) ∧
      st2.heap.read r = default_settings ∧
      dget st2.redisUsers (toString u) = some (.ok default_settings) ∧
      st2.userWrites = st.userWrites + 1 := by
  rcases writeDefault_spec st (toString u) with ⟨r, st2, he, h1, h2, h3⟩
  refine ⟨r, st2, ?_, h1, h2, h3⟩
  unfold get_user_settings
  rcases hm with hnone | hstale
  · cases hst : is_cache_stale st <;> simp [hnone, hst, hb, h, he]
  · rcases hdg : dget st.userSettingsCache (toString u) with _ | rc <;>
      simp [hdg, hstale, hb, h, he]

/-- A state whose persisted record for user 7 does not parse. -/
def stC10 : BotState :=
  { userSettingsCache := [], chatMembersCache := [],
    cacheLastUpdated := 50, heap := ⟨[], 0⟩,
    redisUsers := [("7", .bad "garbage")], redisChatMembers := [],
    redisAvailable := true, now := 50, refreshCount := 0, userWrites := 0 }

/-- C10, witness: the theorem applied at `stC10`. -/
theorem c10_bad_record_overwritten_witness :
    dget stC10.redisUsers "7" = some (.bad "garbage") ∧
    (∃ r st2, get_user_settings stC10 7 = (.ok r, st2) ∧
      st2.heap.read r = default_settings ∧
      dget st2.redisUsers "7" = some (.ok default_settings) ∧
      st2.userWrites = stC10.userWrites + 1) :=
  ⟨rfl, c10_bad_record_overwritten stC10 7 "garbage" rfl rfl (Or.inl rfl)⟩

theorem bumpUsers_state (x : (Except Unit PMResult) × BotState) : (bumpUsers x).2 = x.2 := by
  rcases x with ⟨e, st⟩
  cases e <;> rfl

theorem addSend_state (u : Nat) (t : String) (x : (Except Unit PMResult) × BotState) :
    (addSend u t x).2 = x.2 := by
  rcases x with ⟨e, st⟩
  cases e <;> rfl

/-- Any state observation that `get_user_settings` preserves is preserved by
the whole per-member loop. -/
theorem member_loop_preserves {α : Type} (f : BotState → α)
    (hf : ∀ st u, f (get_user_settings st u).2 = f st)
    (remote : String → String → Except Unit String) (sendOk : Nat → Bool)
    (text : String) (senderId : Nat) (ms : List String) (st : BotState) :
    f (member_loop remote sendOk text senderId st ms).2 = f st := by
  induction ms generalizing st with
  | nil => rfl
  | cons uidStr rest ih =>
    unfold member_loop
    split
    · rfl
    · rename_i uid hp
      by_cases hs : uid = senderId
      · rw [if_pos hs, bumpUsers_state]
        exact ih st
      · rw [if_neg hs]
        split
      
        · rename_i e st1 hg
          have hf1 := hf st uid
          rw [hg] at hf1
          exact hf1
        · rename_i r st1 hg
          have hf1 := hf st uid
          rw [hg] at hf1
          dsimp only
          split
          · rw [bumpUsers_state, ih st1]
            exact hf1
          · split_ifs <;>
              simp only [bumpUsers_state, addSend_state] <;>
              (rw [ih st1]; exact hf1)

theorem gcm_refreshCount (st : BotState) (c : Nat) :
    (get_chat_members st c).2.refreshCount = st.refreshCount := by
  unfold get_chat_members
  cases hdg : dget st.chatMembersCache (toString c) <;>
    cases hav : st.redisAvailable <;> simp [hdg, hav]

theorem add_refreshCount (st : BotState) (u c : Nat) :
    (add_user_to_chat st u c).refreshCount = st.refreshCount := by
  unfold add_user_to_chat
  cases hav : st.redisAvailable <;> simp [hav]

theorem load_members_refreshCount (ms : List String) (st : BotState) :
    (load_members st ms).refreshCount = st.refreshCount := by
  induction ms generalizing st with
  | nil => rfl
  | cons uid rest ih =>
    unfold load_members
    rcases hru : dget st.redisUsers uid with _ | (s | raw) <;> simp [hru, ih]

theorem load_chats_refreshCount (cids : List String) (st : BotState) :
    (load_chats st cids).refreshCount = st.refreshCount := by
  induction cids generalizing st with
  | nil => rfl
  | cons cid rest ih =>
    unfold load_chats
    simp [ih, load_members_refreshCount]

/-- `refresh_cache_if_needed` performs exactly one full rebuild when the
cache is stale and the store reachable, and none otherwise. -/
theorem refresh_refreshCount (st : BotState) :
    (refresh_cache_if_needed st).2.refreshCount
      = st.refreshCount + (if is_cache_stale st && st.redisAvailable then 1 else 0) := by
  unfold refresh_cache_if_needed
  cases hst : is_cache_stale st <;> cases hav : st.redisAvailable <;>
    simp [hst, hav, load_chats_refreshCount]

/-- With the store available the refresh never raises. -/
theorem refresh_ok (st : BotState) (h : st.redisAvailable = true) :
    ∃ st0, refresh_cache_if_needed st = (.ok (), st0) := by
  unfold refresh_cache_if_needed
  cases hst : is_cache_stale st <;> simp [hst, h]

theorem ml_refreshCount (remote : String → String → Except Unit String) (sendOk : Nat → Bool)
    (text : String) (senderId : Nat) (ms : List String) (st : BotState) :
    (member_loop remote sendOk text senderId st ms).2.refreshCount = st.refreshCount :=
  member_loop_preserves (fun st => st.refreshCount)
    (fun st u => (gus_frame st u).2.2.2.2.2) remote sendOk text senderId ms st

theorem pm_match_state (x : (Except Unit PMResult) × BotState) :
    (match x with
      | (.error e, st3) => ((Except.error e : Except Unit (Option PMResult)), st3)
      | (.ok r, st3) => (.ok (some r), st3)).2 = x.2 := by
  rcases x with ⟨e, st3⟩
  cases e <;> rfl

/-- `process_message` with a reachable store completes the refresh first:
exactly one rebuild when the cache was stale, none when fresh, and nothing
later in the handler rebuilds again. -/
theorem pm_refreshCount (remote : String → String → Except Unit String) (sendOk : Nat → Bool)
    (st : BotState) (m : Msg) (h : st.redisAvailable = true) :
    (process_message remote sendOk st m).2.refreshCount
      = st.refreshCount + (if is_cache_stale st then 1 else 0) := by
  rcases refresh_ok st h with ⟨st0, hr⟩
  have hrc := refresh_refreshCount st
  rw [hr, h] at hrc
  simp only [Bool.and_true] at hrc
  unfold process_message
  rw [hr]
  dsimp only
  revert hrc
  generalize (if is_cache_stale st = true then (1 : Nat) else 0) = k
  intro hrc
  split_ifs <;>
    first
      | exact hrc
      | (rw [add_refreshCount]; exact hrc)
      | (rw [pm_match_state, ml_refreshCount, gcm_refreshCount, add_refreshCount]; exact hrc)

/-- C2, amended: neither `get_chat_members` nor `get_user_settings` ever
triggers a cache rebuild, TTL elapsed or not (the former serves whatever is
cached, the latter reloads just the one user from the store); the full
rebuild is instead triggered by the message handler: with a reachable store,
`process_message` performs exactly one `refresh_cache_if_needed` rebuild
before reading data when the TTL has elapsed, and none otherwise. -/
theorem c2_refresh_trigger (st : BotState) (u c : Nat) (m : Msg)
    (remote : String → String → Except Unit String) (sendOk : Nat → Bool)
    (h : st.redisAvailable = true) :
    ((get_chat_members st c).2.refreshCount = st.refreshCount) ∧
    ((get_user_settings st u).2.refreshCount = st.refreshCount) ∧
    ((process_message remote sendOk st m).2.refreshCount
       = st.refreshCount + (if is_cache_stale st then 1 else 0)) :=
  ⟨gcm_refreshCount st c, (gus_frame st u).2.2.2.2.2,
    pm_refreshCount remote sendOk st m h⟩

/-- A stale state (TTL long elapsed, no intervening write) with chat 1 and
its member cached, store reachable. -/
def stC2 : BotState :=
  { userSettingsCache := [], chatMembersCache := [("1", ["7"])],
    cacheLastUpdated := 0,
    heap := ⟨[], 0⟩, redisUsers := [], redisChatMembers := [("1", ["7"])],
    redisAvailable := true, now := 99999, refreshCount := 0, userWrites := 0 }

/-- C2, counterexample: with the TTL elapsed, the next `get_chat_members`
call returns data yet performs no rebuild at all - not the exactly-one
rebuild the claim requires. -/
theorem c2_counterexample :
    is_cache_stale stC2 = true ∧
    (get_chat_members stC2 1).1 = ["7"] ∧
    ¬ ((get_chat_members stC2 1).2.refreshCount = stC2.refreshCount + 1) := by
  decide

/-- A non-group update, enough to drive `process_message` through its refresh
step. -/
def msgC2 : Msg :=
  { chatType := "private", hasMessage := false, text := none,
    senderId := 1, chatId := 1, messageId := 1 }

/-- C2, witness: the amended theorem applied at the stale state `stC2`. -/
theorem c2_refresh_trigger_witness :
    stC2.redisAvailable = true ∧
    (((get_chat_members stC2 1).2.refreshCount = stC2.refreshCount) ∧
     ((get_user_settings stC2 7).2.refreshCount = stC2.refreshCount) ∧
     ((process_message (fun _ _ => .error ()) (fun _ => true) stC2 msgC2).2.refreshCount
        = stC2.refreshCount + (if is_cache_stale stC2 then 1 else 0))) :=
  ⟨rfl, c2_refresh_trigger stC2 7 1 msgC2 (fun _ _ => .error ()) (fun _ => true) rfl⟩

/-- The C6 multi-party chat: members A=1 (the sender), B=2 learning Spanish
in overlay mode, C=3 with no language and mode off; the cache is fresh. -/
def stC6 : BotState :=
  { userSettingsCache := [("2", 0), ("3", 1)],
    chatMembersCache := [("10", ["1", "2", "3"])],
    cacheLastUpdated := 100,
    heap := ⟨[(0, ⟨some "Spanish", "overlay"⟩), (1, ⟨none, "off"⟩)], 2⟩,
    redisUsers := [],
    redisChatMembers := [("10", ["1", "2", "3"])],
    redisAvailable := true,
    now := 100,
    refreshCount := 0,
    userWrites := 0 }

/-- The C6 inbound text: "Hello" from A=1 in group chat 10. -/
def msgC6 : Msg :=
  { chatType := "group", hasMessage := true, text := some "Hello",
    senderId := 1, chatId := 10, messageId := 77 }

/-- The state after the sender is registered. -/
def stC6a : BotState := add_user_to_chat stC6 1 10

/-- The state after B's settings are fetched in the loop. -/
def stC6b : BotState := (get_user_settings stC6a 2).2

/-- The state after C's settings are fetched in the loop. -/
def stC6c : BotState := (get_user_settings stC6b 3).2

/-- C6: for any remote oracle whose translation of "Hello" to Spanish differs
from the source text and is non-blank, processing the message dispatches
exactly one outbound reply - B's translation - and none for the sender A or
for C, while counting all three members. -/
theorem c6_fanout (remote : String → String → Except Unit String) (t : String)
    (ht : translate_text remote "Hello" "Spanish" = t)
    (h1 : t ≠ "Hello") (h2 : trimChars t.toList ≠ []) :
    (process_message remote (fun _ => true) stC6 msgC6).1
      = .ok (some ⟨[(2, t)], 3, 1⟩) := by
  have e3 : member_loop remote (fun _ => true) "Hello" 1 stC6a ["2", "3"]
      = if translate_text remote "Hello" "Spanish" ≠ "Hello"
           ∧ trimChars (translate_text remote "Hello" "Spanish").toList ≠ [] then
          addSend 2 (translate_text remote "Hello" "Spanish")
            (member_loop remote (fun _ => true) "Hello" 1 stC6b ["3"])
        else
          bumpUsers (member_loop remote (fun _ => true) "Hello" 1 stC6b ["3"]) := rfl
  rw [ht] at e3
  rw [if_pos ⟨h1, h2⟩] at e3
  have e4 : member_loop remote (fun _ => true) "Hello" 1 stC6b ["3"]
      = (.ok ⟨[], 1, 0⟩, stC6c) := rfl
  rw [e4] at e3
  calc (process_message remote (fun _ => true) stC6 msgC6).1
      = (match member_loop remote (fun _ => true) "Hello" 1 stC6a ["1", "2", "3"] with
          | (.error e, st3) => ((Except.error e : Except Unit (Option PMResult)), st3)
          | (.ok r, st3) => (.ok (some r), st3)).1 := rfl
    _ = (match bumpUsers (member_loop remote (fun _ => true) "Hello" 1 stC6a ["2", "3"]) with
          | (.error e, st3) => ((Except.error e : Except Unit (Option PMResult)), st3)
          | (.ok r, st3) => (.ok (some r), st3)).1 := rfl
    _ = .ok (some ⟨[(2, t)], 3, 1⟩) := by rw [e3]; rfl

/-- C6, witness: the theorem at a concrete oracle returning Oh-lah. -/
theorem c6_fanout_witness :
    translate_text (fun _ _ => .ok "Oh-lah") "Hello" "Spanish" = "Oh-lah" ∧
    "Oh-lah" ≠ "Hello" ∧ trimChars "Oh-lah".toList ≠ [] ∧
    (process_message (fun _ _ => .ok "Oh-lah") (fun _ => true) stC6 msgC6).1
      = .ok (some ⟨[(2, "Oh-lah")], 3, 1⟩) :=
  ⟨by decide, by decide, by decide,
    c6_fanout (fun _ _ => .ok "Oh-lah") "Oh-lah" (by decide) (by decide) (by decide)⟩

theorem dget_dset_inv {κ α : Type} [DecidableEq κ] {l : List (κ × α)} {k0 k : κ} {v w : α}
    (h : dget (dset l k0 v) k = some w) : (k = k0 ∧ w = v) ∨ dget l k = some w := by
  by_cases hk : k = k0
  · subst hk
    rw [dget_dset_self] at h
    cases h
    exact Or.inl ⟨rfl, rfl⟩
  · rw [dget_dset_ne _ _ _ _ hk] at h
    exact Or.inr h

theorem Heap.read_alloc2 (h : Heap) (s w : Settings) :
    ((h.alloc s).2.alloc w).2.read (h.alloc s).1 = s := by
  have hne : h.next + 1 ≠ h.next := by omega
  simp [Heap.alloc, Heap.read, dget, hne]

/-- Well-formed state: every cached settings reference is a cell number the
heap has already handed out. -/
def WF (st : BotState) : Prop :=
  ∀ p ∈ st.userSettingsCache, p.2 < st.heap.next

/-- The settings value a get call hands its caller (the contents of the
returned dict), or the raised error. -/
def getValue (st : BotState) (u : Nat) : Except Unit Settings :=
  match get_user_settings st u with
  | (.ok r, st2) => .ok (st2.heap.read r)
  | (.error e, _) => .error e

/-- Closed form of `getValue`: the heap matters only through the entry cached
under the user's key. -/
def getOutcome (st : BotState) (uid : String) : Except Unit Settings :=
  match dget st.userSettingsCache uid, is_cache_stale st with
  | some rc, false => .ok (st.heap.read rc)
  | _, _ =>
    if st.redisAvailable then
      match dget st.redisUsers uid with
      | some (.ok s) => .ok s
      | _ => .ok default_settings
    else .error ()

theorem getValue_eq (st : BotState) (u : Nat) :
    getValue st u = getOutcome st (toString u) := by
  unfold getValue getOutcome get_user_settings writeDefault
  cases hdg : dget st.userSettingsCache (toString u) <;>
  cases hstale : is_cache_stale st <;>
  cases hav : st.redisAvailable <;>
  rcases hru : dget st.redisUsers (toString u) with _ | (s | raw) <;>
  simp [hdg, hstale, hav, hru, Heap.read_alloc, Heap.read_alloc2]

/-- The reference handed back by a successful get is never one of the cached
references afterwards: the code returns a fresh copy (or a fresh object)
and caches a different copy. -/
theorem gus_ref_not_cached (st : BotState) (u : Nat) (hWF : WF st) (k : String) (rc : Nat)
    (hk : dget (get_user_settings st u).2.userSettingsCache k = some rc) :
    ∀ r, (get_user_settings st u).1 = .ok r → rc ≠ r := by
  unfold get_user_settings writeDefault at hk ⊢
  cases hdg : dget st.userSettingsCache (toString u) <;>
  cases hstale : is_cache_stale st <;>
  cases hav : st.redisAvailable <;>
  rcases hru : dget st.redisUsers (toString u) with _ | (s | raw) <;>
  simp [hdg, hstale, hav, hru, Heap.alloc] at hk ⊢ <;>
  intro hr <;>
  first
    | (have hlt := hWF _ (dget_mem hk); omega)
    | (rcases dget_dset_inv hk with ⟨hk1, hk2⟩ | hk3
       · omega
       · have hlt := hWF _ (dget_mem hk3)
         omega)

/-- C9: mutating the settings object a get call returned does not change the
value any subsequent get for that user yields (at any later clock reading):
the returned object is a copy isolated from the cache and the store, on the
cache-hit path and on both store-read paths. -/
theorem c9_copy_isolation (st : BotState) (u : Nat) (hWF : WF st)
    (r : Nat) (st1 : BotState) (hg : get_user_settings st u = (.ok r, st1))
    (v : Settings) (t : Nat) :
    getValue { st1 with heap := st1.heap.write r v, now := t } u
      = getValue { st1 with now := t } u := by
  have hne : ∀ k rc, dget st1.userSettingsCache k = some rc → rc ≠ r := by
    intro k rc hk
    exact gus_ref_not_cached st u hWF k rc (by rw [hg]; exact hk) r (by rw [hg])
  rw [getValue_eq, getValue_eq]
  unfold getOutcome is_cache_stale
  dsimp only
  cases hdg : dget st1.userSettingsCache (toString u) with
  | none => rfl
  | some rc =>
    cases hstale : decide (CACHE_TTL < t - st1.cacheLastUpdated) with
    | false =>
      show Except.ok ((st1.heap.write r v).read rc) = Except.ok (st1.heap.read rc)
      rw [Heap.read_write_ne st1.heap r rc v (hne (toString u) rc hdg)]
    | true => rfl

/-- A well-formed state for the C9 witness: user 7 cached at cell 0. -/
def stC9 : BotState :=
  { userSettingsCache := [("7", 0)], chatMembersCache := [],
    cacheLastUpdated := 50,
    heap := ⟨[(0, ⟨some "French", "overlay"⟩)], 1⟩,
    redisUsers := [("7", .ok ⟨some "French", "overlay"⟩)], redisChatMembers := [],
    redisAvailable := true, now := 50, refreshCount := 0, userWrites := 0 }

/-- C9, witness: the theorem applied at `stC9`, mutating the returned object
to a Tamil overlay record and re-reading both before and after the TTL. -/
theorem c9_copy_isolation_witness :
    WF stC9 ∧
    getValue { (get_user_settings stC9 7).2 with
        heap := (get_user_settings stC9 7).2.heap.write 1 ⟨some "Tamil", "overlay"⟩,
        now := 60 } 7
      = getValue { (get_user_settings stC9 7).2 with now := 60 } 7 :=
  ⟨by unfold WF; decide,
    c9_copy_isolation stC9 7 (by unfold WF; decide) 1 (get_user_settings stC9 7).2 (by decide)
      ⟨some "Tamil", "overlay"⟩ 60⟩

/-- C7: per-member failure isolation.  With the store reachable (so the
settings fetch, which sits outside the per-member try/except, cannot raise)
and numeric member ids, the loop always completes and emits its summary: for
an arbitrary dispatch oracle the run reaches the same final state as the
all-dispatches-succeed run, counts every member, and its sends are exactly
the all-success sends filtered to the members whose dispatch succeeded - a
failed translation/dispatch for one member affects that member alone. -/
theorem c7_member_isolation (remote : String → String → Except Unit String)
    (sendOk : Nat → Bool) (text : String) (senderId : Nat)
    (ms : List String) (st : BotState)
    (hav : st.redisAvailable = true)
    (hnum : ∀ s ∈ ms, (parseNat s.toList).isSome) :
    ∃ rf rt stf,
      member_loop remote sendOk text senderId st ms = (.ok rf, stf) ∧
      member_loop remote (fun _ => true) text senderId st ms = (.ok rt, stf) ∧
      rf.usersCount = ms.length ∧ rt.usersCount = ms.length ∧
      rf.sent = rt.sent.filter (fun p => sendOk p.1) ∧
      rf.translationCount = rf.sent.length ∧
      rt.translationCount = rt.sent.length := by
  induction ms generalizing st with
  | nil => exact ⟨⟨[], 0, 0⟩, ⟨[], 0, 0⟩, st, rfl, rfl, rfl, rfl, rfl, rfl, rfl⟩
  | cons uidStr rest ih =>
    have hnum2 : ∀ s ∈ rest, (parseNat s.toList).isSome :=
      fun s hs => hnum s (List.mem_cons_of_mem _ hs)
    have hphead := hnum uidStr (List.mem_cons_self _ _)
    rcases hpo : parseNat uidStr.toList with _ | uid
    · rw [hpo] at hphead
      simp at hphead
    · unfold member_loop
      rw [hpo]
      dsimp only
      by_cases hs : uid = senderId
      · simp only [if_pos hs]
        obtain ⟨rf, rt, stf, e1, e2, hu1, hu2, hsent, htc1, htc2⟩ := ih st hav hnum2
        rw [e1, e2]
        exact ⟨_, _, stf, rfl, rfl, by simp [hu1], by simp [hu2], hsent, htc1, htc2⟩
      · simp only [if_neg hs]
        rcases gus_ok st uid hav with ⟨r, st1, hg⟩
        have hav1 : st1.redisAvailable = true := by
          have hfr := (gus_frame st uid).2.2.1
          rw [hg] at hfr
          rw [hfr, hav]
        rw [hg]
        dsimp only
        rcases hlo : (st1.heap.read r).language with _ | lang
        · dsimp only
          obtain ⟨rf, rt, stf, e1, e2, hu1, hu2, hsent, htc1, htc2⟩ := ih st1 hav1 hnum2
          rw [e1, e2]
          exact ⟨_, _, stf, rfl, rfl, by simp [hu1], by simp [hu2], hsent, htc1, htc2⟩
        · dsimp only
          by_cases hl0 : lang = ""
          · simp only [if_pos hl0]
            obtain ⟨rf, rt, stf, e1, e2, hu1, hu2, hsent, htc1, htc2⟩ := ih st1 hav1 hnum2
            rw [e1, e2]
            exact ⟨_, _, stf, rfl, rfl, by simp [hu1], by simp [hu2], hsent, htc1, htc2⟩
          · simp only [if_neg hl0]
            by_cases hmo : (st1.heap.read r).mode = "off"
            · simp only [if_pos hmo]
              obtain ⟨rf, rt, stf, e1, e2, hu1, hu2, hsent, htc1, htc2⟩ := ih st1 hav1 hnum2
              rw [e1, e2]
              exact ⟨_, _, stf, rfl, rfl, by simp [hu1], by simp [hu2], hsent, htc1, htc2⟩
            · simp only [if_neg hmo]
              by_cases hc : translate_text remote text lang ≠ text
                  ∧ trimChars (translate_text remote text lang).toList ≠ []
              · simp only [if_pos hc]
                obtain ⟨rf, rt, stf, e1, e2, hu1, hu2, hsent, htc1, htc2⟩ := ih st1 hav1 hnum2
                by_cases hsk : sendOk uid = true
                · rw [if_pos hsk, e1, e2]
                  refine ⟨_, _, stf, rfl, rfl, by simp [hu1], by simp [hu2], ?_, ?_, ?_⟩
                  · simp [List.filter_cons, hsk, hsent]
                  · simp [htc1]
                  · simp [htc2]
                · rw [if_neg hsk, e1, e2]
                  have hskf : sendOk uid = false := by
                    cases hx : sendOk uid
                    · rfl
                    · exact absurd hx hsk
                  refine ⟨_, _, stf, rfl, rfl, by simp [hu1], by simp [hu2], ?_, ?_, ?_⟩
                  · simp [List.filter_cons, hskf, hsent]
                  · simp [htc1]
                  · simp [htc2]
              · simp only [if_neg hc]
                obtain ⟨rf, rt, stf, e1, e2, hu1, hu2, hsent, htc1, htc2⟩ := ih st1 hav1 hnum2
                rw [e1, e2]
                exact ⟨_, _, stf, rfl, rfl, by simp [hu1], by simp [hu2], hsent, htc1, htc2⟩

/-- C7, witness: the theorem at the C6 chat with B's dispatch failing. -/
theorem c7_member_isolation_witness :
    stC6.redisAvailable = true ∧
    (∃ rf rt stf,
      member_loop (fun _ _ => .ok "Oh-lah") (fun u => decide (u ≠ 2)) "Hello" 1 stC6
          ["1", "2", "3"] = (.ok rf, stf) ∧
      member_loop (fun _ _ => .ok "Oh-lah") (fun _ => true) "Hello" 1 stC6
          ["1", "2", "3"] = (.ok rt, stf) ∧
      rf.usersCount = ["1", "2", "3"].length ∧ rt.usersCount = ["1", "2", "3"].length ∧
      rf.sent = rt.sent.filter (fun p => (fun u => decide (u ≠ 2)) p.1) ∧
      rf.translationCount = rf.sent.length ∧
      rt.translationCount = rt.sent.length) :=
  ⟨rfl,
    c7_member_isolation (fun _ _ => .ok "Oh-lah") (fun u => decide (u ≠ 2)) "Hello" 1
      ["1", "2", "3"] stC6 rfl (by decide)⟩

theorem load_members_frame (ms : List String) (st : BotState) :
    (load_members st ms).chatMembersCache = st.chatMembersCache ∧
    (load_members st ms).redisChatMembers = st.redisChatMembers ∧
    (load_members st ms).redisAvailable = st.redisAvailable ∧
    (load_members st ms).now = st.now := by
  induction ms generalizing st with
  | nil => exact ⟨rfl, rfl, rfl, rfl⟩
  | cons uid rest ih =>
    unfold load_members
    rcases hru : dget st.redisUsers uid with _ | (s | raw) <;> simp [hru, ih]

theorem load_chats_frame (cids : List String) (st : BotState) :
    (load_chats st cids).redisChatMembers = st.redisChatMembers ∧
    (load_chats st cids).redisAvailable = st.redisAvailable ∧
    (load_chats st cids).now = st.now := by
  induction cids generalizing st with
  | nil => exact ⟨rfl, rfl, rfl⟩
  | cons cid rest ih =>
    unfold load_chats
    have hm := load_members_frame
      ((dget st.redisChatMembers cid).getD [])
      { st with chatMembersCache := dset st.chatMembersCache cid ((dget st.redisChatMembers cid).getD []) }
    refine ⟨?_, ?_, ?_⟩ <;> simp [ih, hm.2.1, hm.2.2.1, hm.2.2.2]

theorem gcm_available (st : BotState) (c : Nat) :
    (get_chat_members st c).2.redisAvailable = st.redisAvailable := by
  unfold get_chat_members
  cases hdg : dget st.chatMembersCache (toString c) <;>
    cases hav : st.redisAvailable <;> simp [hdg, hav]

theorem add_available (st : BotState) (u c : Nat) :
    (add_user_to_chat st u c).redisAvailable = st.redisAvailable := by
  unfold add_user_to_chat
  cases hav : st.redisAvailable <;> simp [hav]

theorem update_frame (st : BotState) (u : Nat) (k : SKey) (v : String) :
    (update_user_settings st u k v).2.chatMembersCache = st.chatMembersCache ∧
    (update_user_settings st u k v).2.redisChatMembers = st.redisChatMembers ∧
    (update_user_settings st u k v).2.redisAvailable = st.redisAvailable := by
  unfold update_user_settings
  rcases hg : get_user_settings st u with ⟨res, st1⟩
  have f := gus_frame st u
  rw [hg] at f
  dsimp only at f
  obtain ⟨f1, f2, f3, -⟩ := f
  cases res <;> dsimp only <;> cases hav : st1.redisAvailable <;>
    simp [hav, f1, f2, ← f3]

theorem refresh_available (st : BotState) :
    (refresh_cache_if_needed st).2.redisAvailable = st.redisAvailable := by
  unfold refresh_cache_if_needed
  cases hst : is_cache_stale st <;> cases hav : st.redisAvailable <;>
    simp [hst, hav, (load_chats_frame _ _).2.1]

theorem ml_available (remote : String → String → Except Unit String) (sendOk : Nat → Bool)
    (text : String) (senderId : Nat) (ms : List String) (st : BotState) :
    (member_loop remote sendOk text senderId st ms).2.redisAvailable = st.redisAvailable :=
  member_loop_preserves (fun st => st.redisAvailable)
    (fun st u => (gus_frame st u).2.2.1) remote sendOk text senderId ms st

theorem pm_available (remote : String → String → Except Unit String) (sendOk : Nat → Bool)
    (st : BotState) (m : Msg) :
    (process_message remote sendOk st m).2.redisAvailable = st.redisAvailable := by
  unfold process_message
  rcases hr : refresh_cache_if_needed st with ⟨res, st0⟩
  have h0 := refresh_available st
  rw [hr] at h0
  cases res <;> dsimp only
  · exact h0
  · split_ifs <;>
      first
        | exact h0
        | (rw [add_available]; exact h0)
        | (rw [pm_match_state, ml_available, gcm_available, add_available]; exact h0)

theorem runOp_available (st : BotState) (op : Op) :
    (runOp st op).redisAvailable = st.redisAvailable := by
  cases op with
  | add u c => exact add_available st u c
  | members c => exact gcm_available st c
  | settings u => exact (gus_frame st u).2.2.1
  | update u k v => exact (update_frame st u k v).2.2
  | message remote sendOk m => exact pm_available remote sendOk st m
  | tick t => rfl

/-- The membership invariant for user-id string `s` in chat-id string `c`:
the persisted member set holds `s`, and the cached member set exists and
holds `s`. -/
def memP (st : BotState) (c s : String) : Prop :=
  s ∈ (dget st.redisChatMembers c).getD [] ∧
  ∃ l, dget st.chatMembersCache c = some l ∧ s ∈ l

theorem memP_of_fields_eq {a b : BotState} (c s : String)
    (h1 : a.chatMembersCache = b.chatMembersCache)
    (h2 : a.redisChatMembers = b.redisChatMembers)
    (h : memP b c s) : memP a c s := by
  unfold memP at *
  rw [h1, h2]
  exact h

theorem dset_sinsert_keeps {m : List (String × List String)} {c s : String} (cid x : String)
    (h : s ∈ (dget m c).getD []) :
    s ∈ (dget (dset m cid (sinsert ((dget m cid).getD []) x)) c).getD [] := by
  by_cases hc : c = cid
  · subst hc
    rw [dget_dset_self]
    exact mem_sinsert_of_mem _ h
  · rw [dget_dset_ne _ _ _ _ hc]
    exact h

theorem dset_sinsert_keeps_entry {m : List (String × List String)} {c s : String} (cid x : String)
    (h : ∃ l, dget m c = some l ∧ s ∈ l) :
    ∃ l, dget (dset m cid (sinsert ((dget m cid).getD []) x)) c = some l ∧ s ∈ l := by
  obtain ⟨l, hl, hsl⟩ := h
  by_cases hc : c = cid
  · subst hc
    refine ⟨sinsert ((dget m c).getD []) x, dget_dset_self _ _ _, ?_⟩
    rw [hl]
    exact mem_sinsert_of_mem _ hsl
  · exact ⟨l, by rw [dget_dset_ne _ _ _ _ hc]; exact hl, hsl⟩

theorem memP_add (st : BotState) (u2 c2 : Nat) (c s : String) (h : memP st c s) :
    memP (add_user_to_chat st u2 c2) c s := by
  obtain ⟨h1, h2⟩ := h
  unfold add_user_to_chat
  dsimp only
  by_cases hav : st.redisAvailable = true
  · rw [if_pos hav]
    exact ⟨dset_sinsert_keeps _ _ h1, dset_sinsert_keeps_entry _ _ h2⟩
  · rw [if_neg hav]
    exact ⟨h1, dset_sinsert_keeps_entry _ _ h2⟩

theorem memP_gcm (st : BotState) (c2 : Nat) (c s : String) (h : memP st c s) :
    memP (get_chat_members st c2).2 c s := by
  obtain ⟨h1, l, hl, hsl⟩ := h
  unfold get_chat_members
  dsimp only
  cases hdg : dget st.chatMembersCache (toString c2) with
  | some ms => exact ⟨h1, l, hl, hsl⟩
  | none =>
    have hc2 : c ≠ toString c2 := by
      intro he
      rw [← he, hl] at hdg
      cases hdg
    by_cases hav : st.redisAvailable = true
    · rw [if_pos hav]
      exact ⟨h1, l, by rw [dget_dset_ne _ _ _ _ hc2]; exact hl, hsl⟩
    · rw [if_neg hav]
      exact ⟨h1, l, hl, hsl⟩

theorem memP_gus (st : BotState) (u : Nat) (c s : String) (h : memP st c s) :
    memP (get_user_settings st u).2 c s :=
  memP_of_fields_eq c s (gus_frame st u).1 (gus_frame st u).2.1 h

theorem memP_update (st : BotState) (u : Nat) (k : SKey) (v : String) (c s : String)
    (h : memP st c s) : memP (update_user_settings st u k v).2 c s :=
  memP_of_fields_eq c s (update_frame st u k v).1 (update_frame st u k v).2.1 h

theorem dget_some_mem_keys {α : Type} {l : List (String × α)} {k : String} {v : α}
    (h : dget l k = some v) : k ∈ l.map (fun p => p.1) :=
  List.mem_map_of_mem _ (dget_mem h)

/-- One rebuild step never loses an `s`-containing cache entry for `c`, as
long as the persisted set for `c` also holds `s`. -/
theorem load_chats_entry (cids : List String) (st : BotState) (c s : String)
    (h1 : s ∈ (dget st.redisChatMembers c).getD [])
    (h : ∃ l, dget st.chatMembersCache c = some l ∧ s ∈ l) :
    ∃ l, dget (load_chats st cids).chatMembersCache c = some l ∧ s ∈ l := by
  induction cids generalizing st with
  | nil => exact h
  | cons cid rest ih =>
    unfold load_chats
    have hmf := load_members_frame ((dget st.redisChatMembers cid).getD [])
      { st with chatMembersCache := dset st.chatMembersCache cid ((dget st.redisChatMembers cid).getD []) }
    apply ih
    · rw [hmf.2.1]
      exact h1
    · rw [hmf.1]
      by_cases hc : c = cid
      · subst hc
        exact ⟨(dget st.redisChatMembers c).getD [], dget_dset_self _ _ _, h1⟩
      · obtain ⟨l, hl, hsl⟩ := h
        exact ⟨l, by rw [dget_dset_ne _ _ _ _ hc]; exact hl, hsl⟩

/-- The rebuild loop creates an `s`-containing cache entry for every scanned
chat whose persisted set holds `s`. -/
theorem load_chats_creates (cids : List String) (st : BotState) (c s : String)
    (h1 : s ∈ (dget st.redisChatMembers c).getD [])
    (hmem : c ∈ cids) :
    ∃ l, dget (load_chats st cids).chatMembersCache c = some l ∧ s ∈ l := by
  induction cids generalizing st with
  | nil => cases hmem
  | cons cid rest ih =>
    unfold load_chats
    have hmf := load_members_frame ((dget st.redisChatMembers cid).getD [])
      { st with chatMembersCache := dset st.chatMembersCache cid ((dget st.redisChatMembers cid).getD []) }
    by_cases hc : c = cid
    · subst hc
      apply load_chats_entry
      · rw [hmf.2.1]
        exact h1
      · rw [hmf.1]
        exact ⟨(dget st.redisChatMembers c).getD [], dget_dset_self _ _ _, h1⟩
    · rcases List.mem_cons.mp hmem with heq | hrest
      · exact absurd heq hc
      · apply ih
        · rw [hmf.2.1]
          exact h1
        · exact hrest

theorem memP_refresh (st : BotState) (c s : String) (hav : st.redisAvailable = true)
    (h : memP st c s) : memP (refresh_cache_if_needed st).2 c s := by
  obtain ⟨h1, h2⟩ := h
  unfold refresh_cache_if_needed
  cases hst : is_cache_stale st
  · dsimp only
    exact ⟨h1, h2⟩
  · dsimp only
    rw [if_pos hav]
    set st0 : BotState := { st with userSettingsCache := [], chatMembersCache := [], cacheLastUpdated := 0 }
      with hst0
    have h1b : s ∈ (dget st0.redisChatMembers c).getD [] := h1
    have hkey : c ∈ st0.redisChatMembers.map (fun p => p.1) := by
      cases hr : dget st0.redisChatMembers c with
      | none =>
        rw [hr] at h1b
        cases h1b
      | some l0 => exact dget_some_mem_keys hr
    have hcr := load_chats_creates (st0.redisChatMembers.map (fun p => p.1)) st0 c s h1b hkey
    have hfr := load_chats_frame (st0.redisChatMembers.map (fun p => p.1)) st0
    obtain ⟨l, hl, hsl⟩ := hcr
    exact ⟨by rw [hfr.1]; exact h1b, l, hl, hsl⟩

theorem memP_message (st : BotState) (remote : String → String → Except Unit String)
    (sendOk : Nat → Bool) (m : Msg) (c s : String)
    (hav : st.redisAvailable = true) (h : memP st c s) :
    memP (process_message remote sendOk st m).2 c s := by
  unfold process_message
  rcases hr : refresh_cache_if_needed st with ⟨res, st0⟩
  have hm0 : memP st0 c s := by
    have hx := memP_refresh st c s hav h
    rw [hr] at hx
    exact hx
  cases res with
  | error e => exact hm0
  | ok a =>
    dsimp only
    have hml := memP_of_fields_eq c s
        (member_loop_preserves (fun st => st.chatMembersCache)
          (fun st u => (gus_frame st u).1) remote sendOk (m.text.getD "") m.senderId
          (get_chat_members (add_user_to_chat st0 m.senderId m.chatId) m.chatId).1
          (get_chat_members (add_user_to_chat st0 m.senderId m.chatId) m.chatId).2)
        (member_loop_preserves (fun st => st.redisChatMembers)
          (fun st u => (gus_frame st u).2.1) remote sendOk (m.text.getD "") m.senderId
          (get_chat_members (add_user_to_chat st0 m.senderId m.chatId) m.chatId).1
          (get_chat_members (add_user_to_chat st0 m.senderId m.chatId) m.chatId).2)
        (memP_gcm (add_user_to_chat st0 m.senderId m.chatId) m.chatId c s
          (memP_add st0 m.senderId m.chatId c s hm0))
    split_ifs <;>
      first
        | exact hm0
        | exact memP_add st0 m.senderId m.chatId c s hm0
        | (rw [pm_match_state]; exact hml)

theorem memP_runOp (st : BotState) (op : Op) (c s : String)
    (hav : st.redisAvailable = true) (h : memP st c s) : memP (runOp st op) c s := by
  cases op with
  | add u c2 => exact memP_add st u c2 c s h
  | members c2 => exact memP_gcm st c2 c s h
  | settings u => exact memP_gus st u c s h
  | update u k v => exact memP_update st u k v c s h
  | message remote sendOk m => exact memP_message st remote sendOk m c s hav h
  | tick t => exact h

theorem memP_run (ops : List Op) (st : BotState) (c s : String)
    (hav : st.redisAvailable = true) (h : memP st c s) : memP (run st ops) c s := by
  induction ops generalizing st with
  | nil => exact h
  | cons op rest ih =>
    have hav1 : (runOp st op).redisAvailable = true := by
      rw [runOp_available]
      exact hav
    exact ih (runOp st op) hav1 (memP_runOp st op c s hav h)

theorem memP_add_self (st : BotState) (u c : Nat) (hav : st.redisAvailable = true) :
    memP (add_user_to_chat st u c) (toString c) (toString u) := by
  unfold add_user_to_chat
  dsimp only
  rw [if_pos hav]
  refine ⟨?_, ?_⟩
  · rw [dget_dset_self]
    exact mem_sinsert_self _ _
  · exact ⟨_, dget_dset_self _ _ _, mem_sinsert_self _ _⟩

theorem memP_get_members (st : BotState) (c : Nat) (s : String)
    (h : memP st (toString c) s) : s ∈ (get_chat_members st c).1 := by
  obtain ⟨h1, l, hl, hsl⟩ := h
  unfold get_chat_members
  dsimp only
  rw [hl]
  exact hsl

theorem add_twice_singleton (st : BotState) (u c : Nat)
    (h : dget st.chatMembersCache (toString c) = none) :
    (get_chat_members (add_user_to_chat (add_user_to_chat st u c) u c) c).1 = [toString u] := by
  unfold add_user_to_chat get_chat_members
  dsimp only
  by_cases hav : st.redisAvailable = true <;>
    simp [hav, h, dget_dset_self, sinsert]

theorem run_superset (st : BotState) (ops : List Op) (c : Nat) (s : String)
    (hav : st.redisAvailable = true) (hs : s ∈ addsOf c ops) :
    s ∈ (get_chat_members (run st ops) c).1 := by
  induction ops generalizing st with
  | nil => cases hs
  | cons op rest ih =>
    have hav1 : (runOp st op).redisAvailable = true := by
      rw [runOp_available]
      exact hav
    simp only [run]
    cases op with
    | add u c2 =>
      by_cases hc : c2 = c
      · subst hc
        simp only [addsOf, if_pos rfl] at hs
        rcases List.mem_cons.mp hs with heq | hrest
        · subst heq
          exact memP_get_members _ _ _
            (memP_run rest _ _ _ hav1 (memP_add_self st u c2 hav))
        · exact ih (runOp st (.add u c2)) hav1 hrest
      · simp only [addsOf, if_neg hc] at hs
        exact ih _ hav1 hs
    | members c2 =>
      simp only [addsOf] at hs
      exact ih _ hav1 hs
    | settings u =>
      simp only [addsOf] at hs
      exact ih _ hav1 hs
    | update u k v =>
      simp only [addsOf] at hs
      exact ih _ hav1 hs
    | message remote sendOk m =>
      simp only [addsOf] at hs
      exact ih _ hav1 hs
    | tick t =>
      simp only [addsOf] at hs
      exact ih _ hav1 hs

/-- C8: adding the same user to the same chat twice leaves a member set
holding that user exactly once (the singleton when the chat was previously
unknown); and, with the store reachable, after any trace of operations
`get_chat_members` returns a set containing every user id ever passed to
`add_user_to_chat` for that chat - membership survives staleness-triggered
full rebuilds and is never removed. -/
theorem c8_membership :
    (∀ st u c, dget st.chatMembersCache (toString c) = none →
      (get_chat_members (add_user_to_chat (add_user_to_chat st u c) u c) c).1 = [toString u]) ∧
    (∀ st ops c s, st.redisAvailable = true → s ∈ addsOf c ops →
      s ∈ (get_chat_members (run st ops) c).1) :=
  ⟨add_twice_singleton, run_superset⟩

/-- A trace for the C8 witness: add user 5 to chat 9, let the TTL elapse,
then read the members. -/
def opsC8 : List Op := [Op.add 5 9, Op.tick 99999, Op.members 9]

/-- C8, witness: the theorem applied at `stC5` (empty caches and store). -/
theorem c8_membership_witness :
    (dget stC5.chatMembersCache "9" = none ∧
      (get_chat_members (add_user_to_chat (add_user_to_chat stC5 5 9) 5 9) 9).1 = ["5"]) ∧
    (stC5.redisAvailable = true ∧ "5" ∈ addsOf 9 opsC8 ∧
      "5" ∈ (get_chat_members (run stC5 opsC8) 9).1) :=
  ⟨⟨rfl, c8_membership.1 stC5 5 9 rfl⟩,
   ⟨rfl, by decide, c8_membership.2 stC5 opsC8 9 "5" rfl (by decide)⟩⟩
